import Mathlib

/-!
# Verification of the Slack-to-Google-Sheets integration script

Shallow embedding of `src/Script.js` (a Google Apps Script webhook handler):

* the five field extractors (`extractSourceBank`, `extractBeneficiaryBank`,
  `extractTotal`, `extractFFB`, `extractNotes`), each a JavaScript regular
  expression match (`String.prototype.match`) with a `"N/A"` fallback,
* the permalink builder `generateSlackLink`,
* the request handler `doPost`.

JavaScript regular expressions are embedded by a small backtracking engine
(`mrun` / `matchFrom`) implementing exactly the constructs used by the five
patterns of the source: case-insensitive literals, `\s+`, `\w+`, `\d+`
(greedy one-or-more of a character class), `[\s\S]*?` (lazy any-character
star), one capture group, and the alternative `(\n|$)`.  `matchFrom` scans
candidate start positions left to right, as `String.prototype.match` does
for a non-global, non-anchored pattern; at a given start position the
engine explores alternatives in JavaScript order (greedy quantifiers
longest-first, lazy quantifiers shortest-first, alternation left branch
first), so the first overall success reproduces the JavaScript match and
its group-1 capture.
-/

/-! ## Character classes (JavaScript semantics, no `u` flag)

All predicates are stated on `Char.toNat` code points. -/

/-- JavaScript `\s`: tab, LF, VT, FF, CR, space, NBSP, U+1680,
U+2000–U+200A, U+2028, U+2029, U+202F, U+205F, U+3000, U+FEFF.
This is also exactly the set removed by `String.prototype.trim`. -/
def isJsWs (c : Char) : Bool :=
  c.toNat == 0x9 || c.toNat == 0xA || c.toNat == 0xB || c.toNat == 0xC ||
  c.toNat == 0xD || c.toNat == 0x20 || c.toNat == 0xA0 || c.toNat == 0x1680 ||
  (0x2000 ≤ c.toNat && c.toNat ≤ 0x200A) || c.toNat == 0x2028 ||
  c.toNat == 0x2029 || c.toNat == 0x202F || c.toNat == 0x205F ||
  c.toNat == 0x3000 || c.toNat == 0xFEFF

/-- JavaScript `\w` (without the `u` flag): `[A-Za-z0-9_]`. -/
def isWordChar (c : Char) : Bool :=
  (0x41 ≤ c.toNat && c.toNat ≤ 0x5A) || (0x61 ≤ c.toNat && c.toNat ≤ 0x7A) ||
  (0x30 ≤ c.toNat && c.toNat ≤ 0x39) || c.toNat == 0x5F

/-- JavaScript `\d`: `[0-9]`. -/
def isDigitChar (c : Char) : Bool :=
  0x30 ≤ c.toNat && c.toNat ≤ 0x39

/-- ASCII lower-casing.  With the `i` flag and without the `u` flag,
JavaScript canonicalisation never maps a non-ASCII character onto an ASCII
one, so for the ASCII anchor literals of this script (`H2H`, `to`, `Total`,
`ffb`, `notes`) case-insensitive matching is exactly ASCII-case-blind
comparison. -/
def lowerAscii (c : Char) : Char :=
  if 0x41 ≤ c.toNat && c.toNat ≤ 0x5A then Char.ofNat (c.toNat + 0x20) else c

/-- Case-insensitive character comparison (see `lowerAscii`). -/
def ciChar (a b : Char) : Bool := lowerAscii a == lowerAscii b

/-- `ciStartsWith pat s`: the input `s` starts with the literal `pat`,
case-insensitively. -/
def ciStartsWith : List Char → List Char → Bool
  | [], _ => true
  | _ :: _, [] => false
  | p :: ps, c :: cs => ciChar p c && ciStartsWith ps cs

/-- `occursCI pat s`: some suffix of `s` starts with `pat`,
case-insensitively — i.e. the anchor literal `pat` occurs in `s`. -/
def occursCI (pat : List Char) : List Char → Bool
  | [] => ciStartsWith pat []
  | c :: t => ciStartsWith pat (c :: t) || occursCI pat t

/-! ## The regular-expression engine -/

/-- The three character classes used by the script's patterns. -/
inductive CharClass where
  | ws    -- `\s`
  | word  -- `\w`
  | digit -- `\d`
deriving DecidableEq

/-- Membership in a character class. -/
def CharClass.mem : CharClass → Char → Bool
  | .ws => isJsWs
  | .word => isWordChar
  | .digit => isDigitChar

/-- Abstract syntax of the regular-expression fragment used by the script:
`lit a` is a case-insensitive literal, `plus cl` is greedy `X+` for a
character class, `starLazy` is `[\s\S]*?`, `grp r` is the (single) capture
group, `seq` is concatenation, and `endAlt` is `(\n|$)` (without the `m`
flag, `$` matches only at end of input). -/
inductive RE where
  | lit (a : List Char)
  | plus (cl : CharClass)
  | starLazy
  | grp (r : RE)
  | seq (a b : RE)
  | endAlt

/-- A match result: the group-1 capture, if the group participated. -/
abbrev MRes := Option (List Char)

/-- Greedy quantifier backtracking: try the continuation `k` after
consuming `n` characters, then `n - 1`, …, down to `1`; `X+` fails if no
length from the maximal run down to one character succeeds. -/
def tryLens (k : List Char → Option MRes) (s : List Char) : Nat → Option MRes
  | 0 => none
  | n + 1 =>
    match k (s.drop (n + 1)) with
    | some r => some r
    | none => tryLens k s n

/-- Lazy `[\s\S]*?`: try the continuation consuming nothing, then consume
one character at a time. -/
def lazyAll (k : List Char → Option MRes) : List Char → Option MRes
  | [] => k []
  | c :: t =>
    match k (c :: t) with
    | some r => some r
    | none => lazyAll k t

/-- Run regex `r` on input `s` with success continuation `k`, exploring
alternatives in JavaScript backtracking order.  The continuation receives
the unconsumed suffix; `grp` records as the capture the chunk consumed by
its body (each pattern of the script has exactly one group, so a single
capture slot suffices). -/
def mrun : RE → List Char → (List Char → Option MRes) → Option MRes
  | .lit a, s, k => if ciStartsWith a s then k (s.drop a.length) else none
  | .plus cl, s, k => tryLens k s (s.takeWhile cl.mem).length
  | .starLazy, s, k => lazyAll k s
  | .grp r, s, k =>
    mrun r s (fun rest => (k rest).map (fun _ => some (s.take (s.length - rest.length))))
  | .seq a b, s, k => mrun a s (fun rest => mrun b rest k)
  | .endAlt, s, k =>
    match s with
    | [] => k []
    | c :: t => if c = '\n' then k t else none

/-- Initial continuation: the pattern is unanchored on the right, so any
remaining suffix is accepted; no capture has been recorded yet. -/
def k0 : List Char → Option MRes := fun _ => some none

/-- `String.prototype.match` for a non-global pattern: try to match at
each start position, left to right; `none` models a `null` match result,
`some cap` a successful match with group-1 capture `cap`. -/
def matchFrom (r : RE) : List Char → Option MRes
  | [] => mrun r [] k0
  | c :: t =>
    match mrun r (c :: t) k0 with
    | some res => some res
    | none => matchFrom r t

/-! ## The five extractors and the permalink builder -/

/-- The anchor literal `H2H` of `/H2H\s+(\w+)/i`. -/
def h2hAnchor : List Char := "H2H".data
/-- The anchor literal `to` of `/to\s+([\s\S]*?)\s+Total/i`. -/
def toAnchor : List Char := "to".data
/-- The anchor literal `Total` of `/Total\s+(\d+)/i` (and the right
anchor of the Beneficiary-Bank pattern). -/
def totalAnchor : List Char := "Total".data
/-- The anchor literal `ffb` of `/(\d+)\s+ffb/i`. -/
def ffbAnchor : List Char := "ffb".data
/-- The anchor literal `notes` of `/notes\s+([\s\S]*?)(\n|$)/i`. -/
def notesAnchor : List Char := "notes".data

/-- `/H2H\s+(\w+)/i` (Script.js line 94). -/
def sourceBankRE : RE := .seq (.lit h2hAnchor) (.seq (.plus .ws) (.grp (.plus .word)))

/-- `/to\s+([\s\S]*?)\s+Total/i` (Script.js line 107). -/
def beneficiaryBankRE : RE :=
  .seq (.lit toAnchor)
    (.seq (.plus .ws) (.seq (.grp .starLazy) (.seq (.plus .ws) (.lit totalAnchor))))

/-- `/Total\s+(\d+)/i` (Script.js line 120). -/
def totalRE : RE := .seq (.lit totalAnchor) (.seq (.plus .ws) (.grp (.plus .digit)))

/-- `/(\d+)\s+ffb/i` (Script.js line 133). -/
def ffbRE : RE := .seq (.grp (.plus .digit)) (.seq (.plus .ws) (.lit ffbAnchor))

/-- `/notes\s+([\s\S]*?)(\n|$)/i` (Script.js line 146).  The `(\n|$)`
group is group 2 and is never read by the script (`match[1]` only), so it
is embedded as a non-capturing alternative. -/
def notesRE : RE := .seq (.lit notesAnchor) (.seq (.plus .ws) (.seq (.grp .starLazy) .endAlt))

/-- `String.prototype.trim`: remove JavaScript whitespace (the `isJsWs`
set) from both ends. -/
def jsTrim (s : String) : String :=
  String.mk (((s.data.dropWhile isJsWs).reverse.dropWhile isJsWs).reverse)

/-- Script.js lines 93–97:
`const match = message.match(/H2H\s+(\w+)/i);`
`return match && match[1] ? match[1] : "N/A";`
(`match[1]` is an empty string only vacuously here, but the truthiness
test is reproduced faithfully: an empty capture would give `"N/A"`). -/
def extractSourceBank (message : String) : String :=
  match matchFrom sourceBankRE message.data with
  | some (some cap) => if cap = [] then "N/A" else String.mk cap
  | _ => "N/A"

/-- Script.js lines 106–110:
`const match = message.match(/to\s+([\s\S]*?)\s+Total/i);`
`return match && match[1] ? match[1].trim() : "N/A";`
(the truthiness of `match[1]` is tested before trimming). -/
def extractBeneficiaryBank (message : String) : String :=
  match matchFrom beneficiaryBankRE message.data with
  | some (some cap) => if cap = [] then "N/A" else jsTrim (String.mk cap)
  | _ => "N/A"

/-- Script.js lines 119–123:
`const match = message.match(/Total\s+(\d+)/i);`
`return match && match[1] ? match[1] : "N/A";` -/
def extractTotal (message : String) : String :=
  match matchFrom totalRE message.data with
  | some (some cap) => if cap = [] then "N/A" else String.mk cap
  | _ => "N/A"

/-- Script.js lines 132–136:
`const match = message.match(/(\d+)\s+ffb/i);`
`return match && match[1] ? match[1] : "N/A";` -/
def extractFFB (message : String) : String :=
  match matchFrom ffbRE message.data with
  | some (some cap) => if cap = [] then "N/A" else String.mk cap
  | _ => "N/A"

/-- Script.js lines 145–149:
`const match = message.match(/notes\s+([\s\S]*?)(\n|$)/i);`
`return match && match[1] ? match[1].trim() : "N/A";` -/
def extractNotes (message : String) : String :=
  match matchFrom notesRE message.data with
  | some (some cap) => if cap = [] then "N/A" else jsTrim (String.mk cap)
  | _ => "N/A"

/-- `timestamp.replace(".", "")` — `String.prototype.replace` with a plain
string pattern replaces only the first occurrence; with an empty
replacement this removes the first `'.'` and nothing else. -/
def replaceFirstDot : List Char → List Char
  | [] => []
  | c :: t => if c = '.' then t else c :: replaceFirstDot t

/-- Script.js line 159: the hardcoded workspace base URL. -/
def workspaceUrl : String := "https://your-slack-workspace.slack.com"

/-- Script.js lines 158–161:
`return workspaceUrl + "/archives/" + channelId + "/p" + timestamp.replace(".", "");`
(template literal written as concatenation). -/
def generateSlackLink (channelId timestamp : String) : String :=
  workspaceUrl ++ "/archives/" ++ channelId ++ "/p" ++ String.mk (replaceFirstDot timestamp.data)

/-! ## JSON values and the dynamic-JavaScript glue used by `doPost`

`JSON.parse` is an external facility (spec §6); `doPost` is modelled on the
*outcome* of parsing the request body: `none` for a body that is not
parseable JSON (`JSON.parse` throws), `some j` for a parsed JSON value.
JSON numerals are modelled as integers; no claim depends on fractional
numbers. -/

inductive Json where
  | jundefined              -- the JavaScript value `undefined` (never a parse result)
  | jnull
  | jbool (b : Bool)
  | jnum (n : Int)
  | jstr (s : String)
  | jarr (elems : List Json)
  | jobj (fields : List (String × Json))

/-- Property access `v[key]`: throws a `TypeError` on `null`/`undefined`,
returns `undefined` on primitives and on objects lacking the key.  A
`jobj` may carry duplicate keys; `JSON.parse` keeps the last binding, so
lookup is from the right. -/
def jsGet : Json → String → Except String Json
  | .jnull, key => .error ("TypeError: cannot read " ++ key ++ " of null")
  | .jundefined, key => .error ("TypeError: cannot read " ++ key ++ " of undefined")
  | .jobj fs, key =>
    match fs.reverse.find? (fun p => p.fst == key) with
    | some p => .ok p.snd
    | none => .ok .jundefined
  | _, _ => .ok .jundefined

/-- JavaScript truthiness (on JSON-parse-producible values plus
`undefined`; `NaN` is not producible here). -/
def jsTruthy : Json → Bool
  | .jundefined => false
  | .jnull => false
  | .jbool b => b
  | .jnum n => !(n == 0)
  | .jstr s => !(s == "")
  | .jarr _ => true
  | .jobj _ => true

/-- Strict equality `v === "lit"` against a string literal. -/
def strictEqStr (v : Json) (lit : String) : Bool :=
  match v with
  | .jstr s => s == lit
  | _ => false

/-- A value on which a string method (`match`, `replace`) is invoked must
be a string; on any other value the call throws a `TypeError`. -/
def expectStr : Json → Except String String
  | .jstr s => .ok s
  | _ => .error "TypeError: not a string method receiver"

def isJundef : Json → Bool
  | .jundefined => true
  | _ => false

def isJnull : Json → Bool
  | .jnull => true
  | _ => false

/-- One hexadecimal digit (lower case), for `\u00XX` escapes. -/
def hexDigit (n : Nat) : Char :=
  if n < 10 then Char.ofNat (0x30 + n) else Char.ofNat (0x57 + n)

/-- `JSON.stringify` escaping of one character inside a string. -/
def escapeJsonChar (c : Char) : String :=
  if c = '"' then "\\\""
  else if c = '\\' then "\\\\"
  else if c = '\x08' then "\\b"
  else if c = '\x0C' then "\\f"
  else if c = '\n' then "\\n"
  else if c = '\x0D' then "\\r"
  else if c = '\t' then "\\t"
  else if c.toNat < 0x20 then
    "\\u00" ++ String.mk [hexDigit (c.toNat / 16), hexDigit (c.toNat % 16)]
  else String.mk [c]

/-- `JSON.stringify` rendering of a string, quotes included. -/
def quoteJson (s : String) : String :=
  "\"" ++ String.join (s.data.map escapeJsonChar) ++ "\""

mutual
/-- `JSON.stringify` on JSON values (plus `undefined`): object fields
whose value is `undefined` are skipped, array elements that are
`undefined` render as `null`.  (Top-level `undefined` yields no string in
JavaScript; `doPost` only ever stringifies object literals.) -/
def jsonStringify : Json → String
  | .jundefined => "undefined"
  | .jnull => "null"
  | .jbool b => if b then "true" else "false"
  | .jnum n => toString n
  | .jstr s => quoteJson s
  | .jarr xs => "[" ++ String.intercalate "," (stringifyElems xs) ++ "]"
  | .jobj fs => "\x7b" ++ String.intercalate "," (stringifyFields fs) ++ "\x7d"

def stringifyElems : List Json → List String
  | [] => []
  | x :: t => (if isJundef x then "null" else jsonStringify x) :: stringifyElems t

def stringifyFields : List (String × Json) → List String
  | [] => []
  | (key, v) :: t =>
    if isJundef v then stringifyFields t
    else (quoteJson key ++ ":" ++ jsonStringify v) :: stringifyFields t
end

mutual
/-- String coercion as performed by a template literal placeholder
(`String(v)`): arrays join their elements with `","` (with `null` and
`undefined` elements rendering empty), objects render as
`[object Object]`. -/
def jsTemplateStr : Json → String
  | .jundefined => "undefined"
  | .jnull => "null"
  | .jbool b => if b then "true" else "false"
  | .jnum n => toString n
  | .jstr s => s
  | .jarr xs => String.intercalate "," (templateElems xs)
  | .jobj _ => "[object Object]"

def templateElems : List Json → List String
  | [] => []
  | x :: t =>
    (if isJundef x || isJnull x then "" else jsTemplateStr x) :: templateElems t
end

/-- `String.prototype.split(", ")` (Script.js line 57), specialised to the
two-character separator used there: split on each non-overlapping
occurrence of `", "`, scanning left to right; always returns at least one
chunk.  `acc` is the current chunk, reversed. -/
def splitCommaSpace : List Char → List Char → List (List Char)
  | ',' :: ' ' :: t, acc => acc.reverse :: splitCommaSpace t []
  | c :: t, acc => splitCommaSpace t (c :: acc)
  | [], acc => [acc.reverse]

/-! ## The request handler `doPost` -/

/-- The external collaborators consumed by the mention path (spec §6):

* `toIso`: `new Date(Number(ts) * 1000).toISOString()` — throws a
  `RangeError` when `Number(ts)` is `NaN` or out of the representable
  range, hence `Except`;
* `toLocal`: `new Date(Number(ts) * 1000).toLocaleString("en-US",
  timeZone "Asia/Jakarta")` — total;
* `appendOk`: whether acquiring the active sheet and appending the row
  succeeds (`SpreadsheetApp…getActiveSheet()` / `sheet.appendRow` throwing
  is modelled as `appendOk = false`, in which case nothing is appended). -/
structure External where
  toIso : String → Except String String
  toLocal : String → String
  appendOk : Bool

/-- Script.js lines 54–73: the nine-column row handed to
`sheet.appendRow`, in source order.  `loc` is the `toLocaleString` result;
`split(", ")` yields the date part (`[0]`) and time part (`[1]`, the
JavaScript `undefined` when the separator is absent). -/
def mkRow (iso loc text chStr ts : String) : List Json :=
  let parts := (splitCommaSpace loc.data []).map String.mk
  let date := parts.getD 0 ""
  let time : Json :=
    match parts.get? 1 with
    | some t => .jstr t
    | none => .jundefined
  [.jstr iso, .jstr date, time,
   .jstr (extractSourceBank text), .jstr (extractBeneficiaryBank text),
   .jstr (extractTotal text), .jstr (extractFFB text), .jstr (extractNotes text),
   .jstr (generateSlackLink chStr ts)]

/-- Script.js lines 33–76: the `app_mention` branch of the `try` block
(`Logger.log` calls are effect-free and omitted).  Returns the rows
appended to the sheet; a thrown error is an `Except.error`. -/
def handleMention (data : Json) (ext : External) : Except String (List (List Json)) :=
  match jsGet data "event" with
  | .error e => .error e
  | .ok ev =>
    if jsTruthy ev then
      match jsGet ev "type" with
      | .error e => .error e
      | .ok evty =>
        if strictEqStr evty "app_mention" then
          match jsGet ev "text" with
          | .error e => .error e
          | .ok textv =>
            match expectStr textv with
            | .error e => .error e
            | .ok text =>
              match jsGet ev "channel", jsGet ev "ts" with
              | .error e, _ => .error e
              | .ok _, .error e => .error e
              | .ok chv, .ok tsv =>
                match expectStr tsv with
                | .error e => .error e
                | .ok ts =>
                  match ext.toIso ts with
                  | .error e => .error e
                  | .ok iso =>
                    if ext.appendOk then
                      .ok [mkRow iso (ext.toLocal ts) text (jsTemplateStr chv) ts]
                    else .error "append failed"
        else .ok []
    else .ok []

/-- `JSON.stringify({ success: true })` (Script.js line 83). -/
def successResponse : String := jsonStringify (.jobj [("success", .jbool true)])

/-- The observable outcome of one `doPost` invocation: the JSON text of
the HTTP-200 response, and the rows appended to the sheet. -/
structure DoPostOut where
  response : String
  rows : List (List Json)

/-- Script.js lines 14–84.  `body` is the outcome of
`JSON.parse(e.postData.contents)` (`none`: the parse — or the access to
`e.postData.contents` itself — threw).  The `try`/`catch` swallows every
error and every path that does not `return` inside the `try` block falls
through to the unconditional success response (line 83). -/
def doPost (body : Option Json) (ext : External) : DoPostOut :=
  match body with
  | none => ⟨successResponse, []⟩
  | some data =>
    match jsGet data "type" with
    | .error _ => ⟨successResponse, []⟩
    | .ok ty =>
      if strictEqStr ty "url_verification" then
        match jsGet data "challenge" with
        | .error _ => ⟨successResponse, []⟩
        | .ok ch => ⟨jsonStringify (.jobj [("challenge", ch)]), []⟩
      else
        match handleMention data ext with
        | .ok rows => ⟨successResponse, rows⟩
        | .error _ => ⟨successResponse, []⟩

/-- The handshake discriminator: the parsed body exists and its `type`
property is the string `"url_verification"`. -/
def isHandshakeB : Option Json → Bool
  | none => false
  | some data =>
    match jsGet data "type" with
    | .ok ty => strictEqStr ty "url_verification"
    | .error _ => false

/-! ## Closed-form characterisations of the extractors

`headIs p l` holds when `l` starts with a character satisfying `p`. -/

def headIs (p : Char → Bool) : List Char → Bool
  | [] => false
  | c :: _ => p c

/-- A start position matches an `anchor`-then-`\s+`-then-`(X+)` pattern
exactly when the anchor is present, at least one whitespace character
follows it, and a class-`cl` character follows the whitespace run. -/
def anchorClassHit (a : List Char) (cl : CharClass) (s : List Char) : Bool :=
  ciStartsWith a s && headIs isJsWs (s.drop a.length) &&
    headIs cl.mem ((s.drop a.length).dropWhile isJsWs)

/-- The capture produced at such a position: the maximal class-`cl` run
after the maximal whitespace run after the anchor. -/
def anchorClassCapAt (a : List Char) (cl : CharClass) (s : List Char) : List Char :=
  ((s.drop a.length).dropWhile isJsWs).takeWhile cl.mem

/-- Left-to-right scan for the first matching start position. -/
def anchorClassCap (a : List Char) (cl : CharClass) : List Char → Option (List Char)
  | [] => none
  | s@(_ :: t) =>
    if anchorClassHit a cl s then some (anchorClassCapAt a cl s)
    else anchorClassCap a cl t

/-- The generic `anchor`-then-`\s+`-then-capture-class shape shared by the
Source-Bank and Total patterns. -/
def anchorClassRE (a : List Char) (cl : CharClass) : RE :=
  .seq (.lit a) (.seq (.plus .ws) (.grp (.plus cl)))

/-- `notNl c`: `c` is not a line feed (the negation of what `(\n|$)` can
consume). -/
def notNl (c : Char) : Bool := !(c == '\n')

/-- A start position matches the Notes pattern exactly when the `notes`
anchor is present and at least one whitespace character follows it (the
lazy group and `(\n|$)` then always succeed). -/
def notesHit (s : List Char) : Bool :=
  ciStartsWith notesAnchor s && headIs isJsWs (s.drop notesAnchor.length)

/-- The Notes capture at such a position: everything after the maximal
whitespace run following the anchor, up to (excluding) the next line feed
or the end of input. -/
def notesCapAt (s : List Char) : List Char :=
  ((s.drop notesAnchor.length).dropWhile isJsWs).takeWhile notNl

/-- Left-to-right scan for the first position matching the Notes pattern. -/
def notesCap : List Char → Option (List Char)
  | [] => none
  | s@(_ :: t) => if notesHit s then some (notesCapAt s) else notesCap t

/-- Closed form of `extractNotes`: scan for the first occurrence of the
literal `notes` followed by whitespace; the value is the text from the
first non-whitespace character after the anchor up to the next line feed
or end of input, trimmed, with `"N/A"` when the pattern is absent or the
value is empty. -/
def notesClosed (s : String) : String :=
  match notesCap s.data with
  | none => "N/A"
  | some cap => if cap = [] then "N/A" else jsTrim (String.mk cap)

/-! ## List helper lemmas -/

lemma drop_length_takeWhile (p : Char → Bool) :
    ∀ l : List Char, l.drop (l.takeWhile p).length = l.dropWhile p := by
  intro l
  induction l with
  | nil => rfl
  | cons c t ih =>
    rw [List.takeWhile_cons, List.dropWhile_cons]
    by_cases hc : p c
    · simp [hc, ih]
    · simp [hc]

lemma take_length_takeWhile (p : Char → Bool) :
    ∀ l : List Char, l.take (l.takeWhile p).length = l.takeWhile p := by
  intro l
  induction l with
  | nil => rfl
  | cons c t ih =>
    rw [List.takeWhile_cons]
    by_cases hc : p c
    · simp [hc, ih]
    · simp [hc]

lemma length_takeWhile_dropWhile (p : Char → Bool) (l : List Char) :
    (l.takeWhile p).length + (l.dropWhile p).length = l.length := by
  rw [← List.length_append, List.takeWhile_append_dropWhile]

lemma take_length_sub_dropWhile (p : Char → Bool) (l : List Char) :
    l.take (l.length - (l.dropWhile p).length) = l.takeWhile p := by
  have h2 := length_takeWhile_dropWhile p l
  have h : l.length - (l.dropWhile p).length = (l.takeWhile p).length := by omega
  rw [h, take_length_takeWhile]

lemma mem_of_lt_length_takeWhile (p : Char → Bool) :
    ∀ (l : List Char) (i : Nat), i < (l.takeWhile p).length →
      ∃ c t, l.drop i = c :: t ∧ p c = true := by
  intro l
  induction l with
  | nil => intro i h; simp at h
  | cons c t ih =>
    intro i h
    rw [List.takeWhile_cons] at h
    by_cases hc : p c
    · simp only [hc, if_true, List.length_cons] at h
      cases i with
      | zero => exact ⟨c, t, rfl, hc⟩
      | succ j =>
        rw [List.drop_succ_cons]
        exact ih j (Nat.lt_of_succ_lt_succ h)
    · simp [hc] at h

lemma headIs_true_takeWhile_ne (p : Char → Bool) (l : List Char)
    (h : headIs p l = true) : l.takeWhile p ≠ [] := by
  cases l with
  | nil => simp [headIs] at h
  | cons c t => simp [headIs] at h; simp [List.takeWhile_cons, h]

lemma headIs_false_takeWhile_nil (p : Char → Bool) (l : List Char)
    (h : headIs p l = false) : l.takeWhile p = [] := by
  cases l with
  | nil => rfl
  | cons c t => simp [headIs] at h; simp [List.takeWhile_cons, h]

lemma takeWhile_cons_inv (p : Char → Bool) (l : List Char) (c : Char)
    (t : List Char) (h : l.takeWhile p = c :: t) :
    (∃ t', l = c :: t') ∧ p c = true := by
  cases l with
  | nil => simp at h
  | cons d l' =>
    rw [List.takeWhile_cons] at h
    by_cases hd : p d
    · simp only [hd, if_true, List.cons.injEq] at h
      exact ⟨⟨l', by rw [h.1]⟩, h.1 ▸ hd⟩
    · simp [hd] at h

lemma dropWhile_head_false (p : Char → Bool) :
    ∀ (l : List Char) (c : Char) (t : List Char),
      l.dropWhile p = c :: t → p c = false := by
  intro l
  induction l with
  | nil => intro c t h; simp at h
  | cons d l' ih =>
    intro c t h
    rw [List.dropWhile_cons] at h
    by_cases hd : p d
    · simp only [hd, if_true] at h; exact ih c t h
    · rw [Bool.not_eq_true] at hd
      simp only [hd] at h
      simp only [Bool.false_eq_true, if_false, List.cons.injEq] at h
      rw [← h.1]; exact hd

/-! ## Character-class disjointness -/

lemma ws_not_word (c : Char) (h : isJsWs c = true) : isWordChar c = false := by
  simp only [isJsWs, Bool.or_eq_true, Bool.and_eq_true, beq_iff_eq,
    decide_eq_true_eq] at h
  rw [← Bool.not_eq_true]
  intro hw
  simp only [isWordChar, Bool.or_eq_true, Bool.and_eq_true, beq_iff_eq,
    decide_eq_true_eq] at hw
  omega

lemma ws_not_digit (c : Char) (h : isJsWs c = true) : isDigitChar c = false := by
  simp only [isJsWs, Bool.or_eq_true, Bool.and_eq_true, beq_iff_eq,
    decide_eq_true_eq] at h
  rw [← Bool.not_eq_true]
  intro hw
  simp only [isDigitChar, Bool.and_eq_true, decide_eq_true_eq] at hw
  omega

/-! ## Quantifier-backtracking lemmas -/

lemma tryLens_zero (k : List Char → Option MRes) (s : List Char) :
    tryLens k s 0 = none := rfl

lemma tryLens_succ_some (k : List Char → Option MRes) (s : List Char)
    (n : Nat) (r : MRes) (h : k (s.drop (n + 1)) = some r) :
    tryLens k s (n + 1) = some r := by
  unfold tryLens; rw [h]

lemma tryLens_none (k : List Char → Option MRes) (s : List Char) :
    ∀ n : Nat, (∀ i, 1 ≤ i → i ≤ n → k (s.drop i) = none) →
      tryLens k s n = none := by
  intro n
  induction n with
  | zero => intro _; rfl
  | succ m ih =>
    intro h
    unfold tryLens
    rw [h (m + 1) (Nat.succ_le_succ (Nat.zero_le m)) (Nat.le_refl _)]
    exact ih fun i h1 h2 => h i h1 (Nat.le_succ_of_le h2)

lemma tryLens_some_inv (k : List Char → Option MRes) (s : List Char) :
    ∀ (n : Nat) (r : MRes), tryLens k s n = some r →
      ∃ i, 1 ≤ i ∧ i ≤ n ∧ k (s.drop i) = some r := by
  intro n
  induction n with
  | zero => intro r h; exact absurd h (by simp [tryLens])
  | succ m ih =>
    intro r h
    unfold tryLens at h
    cases hk : k (s.drop (m + 1)) with
    | some v =>
      rw [hk] at h
      simp only at h
      exact ⟨m + 1, Nat.succ_le_succ (Nat.zero_le m), Nat.le_refl _, by rw [hk, h]⟩
    | none =>
      rw [hk] at h
      obtain ⟨i, h1, h2, h3⟩ := ih r h
      exact ⟨i, h1, Nat.le_succ_of_le h2, h3⟩

lemma lazyAll_stop (K : List Char → Option MRes)
    (h1 : ∀ c t, notNl c = true → K (c :: t) = none)
    (h2 : ∀ t, (K ('\n' :: t)).isSome) :
    ∀ s : List Char, lazyAll K s = K (s.dropWhile notNl) := by
  intro s
  induction s with
  | nil => rfl
  | cons c t ih =>
    rw [List.dropWhile_cons]
    by_cases hc : notNl c
    · rw [lazyAll, h1 c t hc, hc, if_pos rfl, ih]
    · rw [Bool.not_eq_true] at hc
      have hceq : c = '\n' := by
        have := hc
        simp only [notNl, Bool.not_eq_false', beq_iff_eq] at this
        exact this
      subst hceq
      obtain ⟨v, hv⟩ := Option.isSome_iff_exists.mp (h2 t)
      rw [lazyAll, hv, hc]
      simp [hv.symm]

/-! ## Evaluating `mrun` at one start position: the anchored-class shape -/

lemma memWs : CharClass.mem .ws = isJsWs := rfl
lemma memWord : CharClass.mem .word = isWordChar := rfl
lemma memDigit : CharClass.mem .digit = isDigitChar := rfl

/-- One-step unfolding for a sequence starting with a literal. -/
lemma mrun_seqLit (a : List Char) (r : RE) (s : List Char)
    (k : List Char → Option MRes) :
    mrun (.seq (.lit a) r) s k =
      if ciStartsWith a s then mrun r (s.drop a.length) k else none := by
  rw [mrun]
  by_cases h : ciStartsWith a s
  · rw [mrun, if_pos h]
  · rw [mrun, if_neg h]

/-- One-step unfolding for a sequence starting with a greedy class. -/
lemma mrun_seqPlus (cl : CharClass) (r : RE) (s : List Char)
    (k : List Char → Option MRes) :
    mrun (.seq (.plus cl) r) s k =
      tryLens (fun rest => mrun r rest k) s (s.takeWhile cl.mem).length := by
  rw [mrun, mrun]

/-- `(X+)` with the top-level continuation: the greedy run is captured
whole, or the group fails when the run is empty. -/
lemma mrun_grpPlus_nil (cl : CharClass) (rest : List Char)
    (h : rest.takeWhile cl.mem = []) :
    mrun (.grp (.plus cl)) rest k0 = none := by
  rw [mrun, mrun, h]
  rfl

lemma mrun_grpPlus_some (cl : CharClass) (rest : List Char) (m : Nat)
    (h : (rest.takeWhile cl.mem).length = m + 1) :
    mrun (.grp (.plus cl)) rest k0 = some (some (rest.takeWhile cl.mem)) := by
  rw [mrun, mrun, h]
  apply tryLens_succ_some
  show (k0 _).map _ = _
  simp only [k0, Option.map_some']
  rw [List.length_drop]
  have h2 := length_takeWhile_dropWhile cl.mem rest
  have h3 : rest.length - (rest.length - (m + 1)) = m + 1 := by omega
  rw [h3, ← h, take_length_takeWhile]

lemma mrun_anchorClass_noAnchor (a : List Char) (cl : CharClass)
    (s : List Char) (h : ciStartsWith a s = false) :
    mrun (anchorClassRE a cl) s k0 = none := by
  rw [anchorClassRE, mrun_seqLit, h]
  rfl

lemma mrun_anchorClass_noWs (a : List Char) (cl : CharClass) (s : List Char)
    (hca : ciStartsWith a s = true)
    (hws : headIs isJsWs (s.drop a.length) = false) :
    mrun (anchorClassRE a cl) s k0 = none := by
  rw [anchorClassRE, mrun_seqLit, hca, if_pos rfl, mrun_seqPlus, memWs,
    headIs_false_takeWhile_nil isJsWs _ hws]
  rfl

lemma mrun_anchorClass_some (a : List Char) (cl : CharClass) (s : List Char)
    (hca : ciStartsWith a s = true)
    (hws : headIs isJsWs (s.drop a.length) = true)
    (hcl : headIs cl.mem ((s.drop a.length).dropWhile isJsWs) = true) :
    mrun (anchorClassRE a cl) s k0 = some (some (anchorClassCapAt a cl s)) := by
  have hwne := headIs_true_takeWhile_ne isJsWs _ hws
  obtain ⟨m, hm⟩ : ∃ m, ((s.drop a.length).takeWhile isJsWs).length = m + 1 := by
    cases hl : ((s.drop a.length).takeWhile isJsWs).length with
    | zero => exact absurd (List.length_eq_zero.mp hl) hwne
    | succ m => exact ⟨m, rfl⟩
  have hcne := headIs_true_takeWhile_ne cl.mem _ hcl
  obtain ⟨m', hm'⟩ :
      ∃ m', (((s.drop a.length).dropWhile isJsWs).takeWhile cl.mem).length = m' + 1 := by
    cases hl : (((s.drop a.length).dropWhile isJsWs).takeWhile cl.mem).length with
    | zero => exact absurd (List.length_eq_zero.mp hl) hcne
    | succ m' => exact ⟨m', rfl⟩
  rw [anchorClassRE, mrun_seqLit, hca, if_pos rfl, mrun_seqPlus, memWs, hm]
  apply tryLens_succ_some
  rw [← hm, drop_length_takeWhile]
  exact mrun_grpPlus_some cl _ m' hm'

lemma mrun_anchorClass_noCl (a : List Char) (cl : CharClass) (s : List Char)
    (hdisj : ∀ c, isJsWs c = true → cl.mem c = false)
    (hca : ciStartsWith a s = true)
    (hcl : headIs cl.mem ((s.drop a.length).dropWhile isJsWs) = false) :
    mrun (anchorClassRE a cl) s k0 = none := by
  rw [anchorClassRE, mrun_seqLit, hca, if_pos rfl, mrun_seqPlus, memWs]
  apply tryLens_none
  intro i h1 h2
  rcases Nat.lt_or_ge i ((s.drop a.length).takeWhile isJsWs).length with hlt | hge
  · obtain ⟨c, t', hdrop, hwc⟩ := mem_of_lt_length_takeWhile isJsWs _ i hlt
    rw [hdrop]
    show mrun (.grp (.plus cl)) (c :: t') k0 = none
    apply mrun_grpPlus_nil
    rw [List.takeWhile_cons, hdisj c hwc]
    simp
  · have hi : i = ((s.drop a.length).takeWhile isJsWs).length := Nat.le_antisymm h2 hge
    rw [hi, drop_length_takeWhile]
    exact mrun_grpPlus_nil cl _ (headIs_false_takeWhile_nil cl.mem _ hcl)

/-! ## Scan-level lemmas: `matchFrom` equals the closed-form scans -/

lemma ciStartsWith_nil (a : List Char) (ha : a ≠ []) :
    ciStartsWith a [] = false := by
  cases a with
  | nil => exact absurd rfl ha
  | cons c t => rfl

lemma matchFrom_cons (r : RE) (c : Char) (t : List Char) :
    matchFrom r (c :: t) =
      match mrun r (c :: t) k0 with
      | some res => some res
      | none => matchFrom r t := rfl

lemma anchorClassHit_nil (a : List Char) (cl : CharClass) (ha : a ≠ []) :
    anchorClassHit a cl [] = false := by
  rw [anchorClassHit, ciStartsWith_nil a ha]
  rfl

lemma matchFrom_anchorClass (a : List Char) (cl : CharClass) (ha : a ≠ [])
    (hdisj : ∀ c, isJsWs c = true → cl.mem c = false) :
    ∀ s : List Char,
      matchFrom (anchorClassRE a cl) s = (anchorClassCap a cl s).map some := by
  intro s
  induction s with
  | nil =>
    show mrun (anchorClassRE a cl) [] k0 = (anchorClassCap a cl []).map some
    rw [mrun_anchorClass_noAnchor a cl [] (ciStartsWith_nil a ha)]
    rfl
  | cons c t ih =>
    rw [matchFrom_cons]
    by_cases hit : anchorClassHit a cl (c :: t)
    · have h3 := hit
      rw [anchorClassHit, Bool.and_eq_true, Bool.and_eq_true] at h3
      obtain ⟨⟨hca, hws⟩, hcl⟩ := h3
      rw [mrun_anchorClass_some a cl _ hca hws hcl]
      rw [anchorClassCap, if_pos hit]
      rfl
    · have hnone : mrun (anchorClassRE a cl) (c :: t) k0 = none := by
        by_cases hca : ciStartsWith a (c :: t)
        · by_cases hcl : headIs cl.mem (((c :: t).drop a.length).dropWhile isJsWs)
          · by_cases hws : headIs isJsWs ((c :: t).drop a.length)
            · exact absurd (by rw [anchorClassHit, hca, hws, hcl]; rfl) hit
            · exact mrun_anchorClass_noWs a cl _ hca (Bool.not_eq_true _ ▸ hws)
          · exact mrun_anchorClass_noCl a cl _ hdisj hca (Bool.not_eq_true _ ▸ hcl)
        · exact mrun_anchorClass_noAnchor a cl _ (Bool.not_eq_true _ ▸ hca)
      rw [hnone]
      show matchFrom (anchorClassRE a cl) t = _
      rw [ih, anchorClassCap, if_neg hit]

lemma anchorClassCap_first (a : List Char) (cl : CharClass) (ha : a ≠ []) :
    ∀ (i : Nat) (s : List Char),
      (∀ j, j < i → anchorClassHit a cl (s.drop j) = false) →
      anchorClassHit a cl (s.drop i) = true →
      anchorClassCap a cl s = some (anchorClassCapAt a cl (s.drop i)) := by
  intro i
  induction i with
  | zero =>
    intro s h0 hi
    rw [List.drop_zero] at hi
    cases s with
    | nil => exact absurd hi (by rw [anchorClassHit_nil a cl ha]; simp)
    | cons c t => rw [anchorClassCap, if_pos hi, List.drop_zero]
  | succ i' ih =>
    intro s h0 hi
    cases s with
    | nil =>
      rw [List.drop_nil] at hi
      exact absurd hi (by rw [anchorClassHit_nil a cl ha]; simp)
    | cons c t =>
      have hhead : anchorClassHit a cl (c :: t) = false := by
        have := h0 0 (Nat.succ_pos i')
        rwa [List.drop_zero] at this
      rw [anchorClassCap, if_neg (by rw [hhead]; simp), List.drop_succ_cons]
      rw [List.drop_succ_cons] at hi
      refine ih t (fun j hj => ?_) hi
      have := h0 (j + 1) (Nat.succ_lt_succ hj)
      rwa [List.drop_succ_cons] at this

/-! ## The Notes pattern: lazy star up to `(\n|$)` -/

lemma mrun_endAlt_nil (k : List Char → Option MRes) :
    mrun .endAlt [] k = k [] := rfl

lemma mrun_endAlt_cons (c : Char) (t : List Char) (k : List Char → Option MRes) :
    mrun .endAlt (c :: t) k = if c = '\n' then k t else none := rfl

/-- The tail `([\s\S]*?)(\n|$)` of the Notes pattern always succeeds, and
captures everything up to (excluding) the first line feed, or the whole
input when there is none. -/
lemma mrun_notesTail (rest : List Char) :
    mrun (.seq (.grp .starLazy) .endAlt) rest k0 =
      some (some (rest.takeWhile notNl)) := by
  show lazyAll
      (fun r => (mrun .endAlt r k0).map
        (fun _ => some (rest.take (rest.length - r.length)))) rest = _
  rw [lazyAll_stop _ ?h1 ?h2 rest]
  case h1 =>
    intro c t hc
    rw [mrun_endAlt_cons, if_neg (by simpa [notNl] using hc)]
    rfl
  case h2 =>
    intro t
    rw [mrun_endAlt_cons, if_pos rfl]
    rfl
  cases hd : rest.dropWhile notNl with
  | nil =>
    rw [mrun_endAlt_nil]
    show some (some (rest.take (rest.length - ([] : List Char).length))) = _
    rw [← hd, take_length_sub_dropWhile]
  | cons c t =>
    have hc : notNl c = false := dropWhile_head_false notNl rest c t hd
    have hceq : c = '\n' := by simpa [notNl] using hc
    rw [mrun_endAlt_cons, if_pos hceq]
    show some (some (rest.take (rest.length - (c :: t).length))) = _
    rw [← hd, take_length_sub_dropWhile]

lemma notesAnchor_ne : notesAnchor ≠ [] := by decide

lemma mrun_notes_noAnchor (s : List Char)
    (h : ciStartsWith notesAnchor s = false) : mrun notesRE s k0 = none := by
  rw [notesRE, mrun_seqLit, h]
  rfl

lemma mrun_notes_noWs (s : List Char)
    (hca : ciStartsWith notesAnchor s = true)
    (hws : headIs isJsWs (s.drop notesAnchor.length) = false) :
    mrun notesRE s k0 = none := by
  rw [notesRE, mrun_seqLit, hca, if_pos rfl, mrun_seqPlus, memWs,
    headIs_false_takeWhile_nil isJsWs _ hws]
  rfl

lemma mrun_notes_some (s : List Char)
    (hca : ciStartsWith notesAnchor s = true)
    (hws : headIs isJsWs (s.drop notesAnchor.length) = true) :
    mrun notesRE s k0 = some (some (notesCapAt s)) := by
  have hwne := headIs_true_takeWhile_ne isJsWs _ hws
  obtain ⟨m, hm⟩ : ∃ m, ((s.drop notesAnchor.length).takeWhile isJsWs).length = m + 1 := by
    cases hl : ((s.drop notesAnchor.length).takeWhile isJsWs).length with
    | zero => exact absurd (List.length_eq_zero.mp hl) hwne
    | succ m => exact ⟨m, rfl⟩
  rw [notesRE, mrun_seqLit, hca, if_pos rfl, mrun_seqPlus, memWs, hm]
  apply tryLens_succ_some
  rw [← hm, drop_length_takeWhile]
  exact mrun_notesTail _

lemma notesHit_nil : notesHit [] = false := by decide

lemma matchFrom_notes :
    ∀ s : List Char, matchFrom notesRE s = (notesCap s).map some := by
  intro s
  induction s with
  | nil =>
    show mrun notesRE [] k0 = (notesCap []).map some
    rw [mrun_notes_noAnchor [] (ciStartsWith_nil _ notesAnchor_ne)]
    rfl
  | cons c t ih =>
    rw [matchFrom_cons]
    by_cases hit : notesHit (c :: t)
    · have h3 := hit
      rw [notesHit, Bool.and_eq_true] at h3
      obtain ⟨hca, hws⟩ := h3
      rw [mrun_notes_some _ hca hws]
      rw [notesCap, if_pos hit]
      rfl
    · have hnone : mrun notesRE (c :: t) k0 = none := by
        by_cases hca : ciStartsWith notesAnchor (c :: t)
        · by_cases hws : headIs isJsWs ((c :: t).drop notesAnchor.length)
          · exact absurd (by rw [notesHit, hca, hws]; rfl) hit
          · exact mrun_notes_noWs _ hca (Bool.not_eq_true _ ▸ hws)
        · exact mrun_notes_noAnchor _ (Bool.not_eq_true _ ▸ hca)
      rw [hnone]
      show matchFrom notesRE t = _
      rw [ih, notesCap, if_neg hit]

/-! ## Absent anchors: the match fails everywhere -/

lemma occursCI_cons (pat : List Char) (c : Char) (t : List Char) :
    occursCI pat (c :: t) = (ciStartsWith pat (c :: t) || occursCI pat t) := rfl

lemma matchFrom_litSeq_none (a : List Char) (r : RE) :
    ∀ s : List Char, occursCI a s = false →
      matchFrom (.seq (.lit a) r) s = none := by
  intro s
  induction s with
  | nil =>
    intro h
    have h' : ciStartsWith a [] = false := h
    show mrun (.seq (.lit a) r) [] k0 = none
    rw [mrun_seqLit, h']
    rfl
  | cons c t ih =>
    intro h
    rw [occursCI_cons, Bool.or_eq_false_iff] at h
    rw [matchFrom_cons, mrun_seqLit, h.1]
    show matchFrom (.seq (.lit a) r) t = none
    exact ih h.2

lemma ciStartsWith_drop_occursCI (a : List Char) :
    ∀ (s : List Char) (n : Nat),
      ciStartsWith a (s.drop n) = true → occursCI a s = true := by
  intro s
  induction s with
  | nil =>
    intro n h
    rw [List.drop_nil] at h
    exact h
  | cons c t ih =>
    intro n h
    cases n with
    | zero =>
      rw [List.drop_zero] at h
      rw [occursCI_cons, h]
      rfl
    | succ n' =>
      rw [List.drop_succ_cons] at h
      rw [occursCI_cons, ih n' h, Bool.or_true]

lemma mrun_ffb_some_occurs (s : List Char) (r : MRes)
    (h : mrun ffbRE s k0 = some r) : occursCI ffbAnchor s = true := by
  have h1 :
      tryLens
        (fun rest =>
          (mrun (.seq (.plus .ws) (.lit ffbAnchor)) rest k0).map
            (fun _ => some (s.take (s.length - rest.length))))
        s (s.takeWhile CharClass.digit.mem).length = some r := h
  obtain ⟨i, _, _, hk⟩ := tryLens_some_inv _ s _ r h1
  obtain ⟨y, hy, _⟩ := Option.map_eq_some'.mp hk
  have h2 :
      tryLens (fun rest => mrun (.lit ffbAnchor) rest k0) (s.drop i)
        ((s.drop i).takeWhile CharClass.ws.mem).length = some y := hy
  obtain ⟨j, _, _, hk2⟩ := tryLens_some_inv _ (s.drop i) _ y h2
  by_cases hsw : ciStartsWith ffbAnchor ((s.drop i).drop j)
  · rw [List.drop_drop] at hsw
    exact ciStartsWith_drop_occursCI ffbAnchor s (i + j) hsw
  · rw [Bool.not_eq_true] at hsw
    have : mrun (.lit ffbAnchor) ((s.drop i).drop j) k0 = none := by
      rw [mrun, hsw]
      rfl
    rw [this] at hk2
    exact absurd hk2 (by simp)

lemma matchFrom_ffb_none (s : List Char) (h : occursCI ffbAnchor s = false) :
    matchFrom ffbRE s = none := by
  induction s with
  | nil =>
    show mrun ffbRE [] k0 = none
    cases hm : mrun ffbRE [] k0 with
    | none => rfl
    | some r =>
      rw [mrun_ffb_some_occurs [] r hm] at h
      exact absurd h (by simp)
  | cons c t ih =>
    rw [occursCI_cons, Bool.or_eq_false_iff] at h
    rw [matchFrom_cons]
    cases hm : mrun ffbRE (c :: t) k0 with
    | none =>
      show matchFrom ffbRE t = none
      exact ih h.2
    | some r =>
      have hocc := mrun_ffb_some_occurs (c :: t) r hm
      rw [occursCI_cons, h.1, h.2] at hocc
      exact absurd hocc (by simp)

/-! ## Extractor-level consequences -/

lemma extractNotes_eq_closed (s : String) : extractNotes s = notesClosed s := by
  rw [extractNotes, notesClosed, matchFrom_notes]
  cases notesCap s.data with
  | none => rfl
  | some cap => rfl

/-- A successful Notes scan yields an empty capture or one whose first
character is not whitespace (it is the first character after the maximal
whitespace run following the anchor). -/
lemma notesCap_head (s : List Char) (cap : List Char)
    (h : notesCap s = some cap) :
    cap = [] ∨ ∃ c t, cap = c :: t ∧ isJsWs c = false := by
  induction s with
  | nil => exact absurd h (by rw [notesCap]; simp)
  | cons c0 t0 ih =>
    rw [notesCap] at h
    by_cases hit : notesHit (c0 :: t0)
    · rw [if_pos hit, Option.some.injEq] at h
      cases hcc : cap with
      | nil => exact Or.inl rfl
      | cons c t =>
        right
        refine ⟨c, t, rfl, ?_⟩
        rw [hcc] at h
        obtain ⟨⟨t', ht'⟩, _⟩ := takeWhile_cons_inv notNl _ c t h
        exact dropWhile_head_false isJsWs _ c t' ht'
    · rw [if_neg hit] at h
      exact ih h

lemma string_mk_ne_empty (c : Char) (t : List Char) :
    String.mk (c :: t) ≠ "" := by
  intro h
  have := congrArg String.data h
  simp at this

lemma jsTrim_ne_empty (c : Char) (t : List Char) (hc : isJsWs c = false) :
    jsTrim (String.mk (c :: t)) ≠ "" := by
  rw [jsTrim]
  intro h
  have hl := congrArg String.data h
  simp only at hl
  rw [List.dropWhile_cons, hc] at hl
  simp only [Bool.false_eq_true, if_false, List.reverse_eq_nil_iff] at hl
  have hall := List.dropWhile_eq_nil_iff.mp hl
  have hcin : c ∈ (c :: t).reverse := by simp
  have := hall c hcin
  rw [hc] at this
  exact absurd this (by simp)

lemma extractNotes_ne_empty (s : String) : extractNotes s ≠ "" := by
  rw [extractNotes_eq_closed, notesClosed]
  cases hn : notesCap s.data with
  | none => show ("N/A" : String) ≠ ""; decide
  | some cap =>
    show (if cap = [] then "N/A" else jsTrim (String.mk cap)) ≠ ""
    by_cases hc : cap = []
    · rw [if_pos hc]; decide
    · rw [if_neg hc]
      rcases notesCap_head s.data cap hn with h | ⟨c, t, hct, hcw⟩
      · exact absurd h hc
      · rw [hct]
        exact jsTrim_ne_empty c t hcw

/-! ## Permalink helper -/

lemma replaceFirstDot_append (a b : List Char) (ha : ∀ c ∈ a, c ≠ '.') :
    replaceFirstDot (a ++ '.' :: b) = a ++ b := by
  induction a with
  | nil => simp [replaceFirstDot]
  | cons c t ih =>
    have hc : c ≠ '.' := ha c (List.mem_cons_self c t)
    rw [List.cons_append, replaceFirstDot, if_neg hc,
      ih (fun x hx => ha x (List.mem_cons_of_mem c hx)), List.cons_append]

/-! ## Case-insensitive `Total` inside `Subtotal` -/

lemma ciStartsWith_total_subtotal (r : List Char) :
    ciStartsWith totalAnchor ('t' :: 'o' :: 't' :: 'a' :: 'l' :: r) = true := by
  have h5 : ciStartsWith [] r = true := rfl
  show (ciChar 'T' 't' &&
    (ciChar 'o' 'o' && (ciChar 't' 't' && (ciChar 'a' 'a' &&
      (ciChar 'l' 'l' && ciStartsWith [] r))))) = true
  rw [h5]
  decide

/-! ## `doPost` structure lemmas -/

lemma handleMention_rows (data : Json) (ext : External) (l : List (List Json))
    (hm : handleMention data ext = .ok l) :
    l = [] ∨ ∃ iso loc text ch ts, l = [mkRow iso loc text ch ts] := by
  rw [handleMention] at hm
  repeat' split at hm
  all_goals first
    | exact Except.noConfusion hm
    | exact Or.inl (Except.ok.inj hm).symm
    | exact Or.inr ⟨_, _, _, _, _, (Except.ok.inj hm).symm⟩

lemma doPost_not_handshake (body : Option Json) (ext : External)
    (h : isHandshakeB body = false) :
    (doPost body ext).response = successResponse := by
  cases body with
  | none => rfl
  | some data =>
    rw [doPost]
    split
    · rfl
    · rename_i ty hty
      have hfalse : strictEqStr ty "url_verification" = false := by
        rw [isHandshakeB, hty] at h
        exact h
      rw [if_neg (show ¬(strictEqStr ty "url_verification" = true) by
        simp [hfalse])]
      cases handleMention data ext with
      | ok rows => rfl
      | error e => rfl

/-! ## Witness fixtures -/

/-- A concrete instantiation of the external collaborators, for witnesses. -/
def extW : External :=
  ⟨fun _ => .ok "2023-10-25T12:34:56.000Z", fun _ => "10/25/2023, 7:34:56 PM", true⟩

/-- The parsed body of the Slack URL-verification handshake example. -/
def handshakeBody : Json :=
  .jobj [("type", .jstr "url_verification"), ("challenge", .jstr "abc123")]

/-! ## The claims -/

/-- Claim C1: for every inbound request whose body is not a
url_verification handshake — including unparseable bodies, bodies missing
event fields, and runs where extraction or the append throws — `doPost`
never propagates an exception past its boundary (it is a total function of
the request and the external collaborators) and returns the JSON body
`{"success":true}`. -/
theorem spec_c1 (body : Option Json) (ext : External)
    (h : isHandshakeB body = false) :
    (doPost body ext).response = successResponse ∧
      successResponse = "\x7b\"success\":true\x7d" :=
  ⟨doPost_not_handshake body ext h, rfl⟩

theorem spec_c1_witness :
    isHandshakeB none = false ∧
      ((doPost none extW).response = successResponse ∧
        successResponse = "\x7b\"success\":true\x7d") :=
  ⟨rfl, spec_c1 none extW rfl⟩

/-- Claim C2: on the end-to-end example message, the five extractors
return `BRI`, `BCA`, `9000`, `5` and `Insufficient balance`. -/
theorem spec_c2 :
    extractSourceBank "H2H BRI to BCA Total 9000 (5 ffb) notes Insufficient balance" = "BRI" ∧
    extractBeneficiaryBank "H2H BRI to BCA Total 9000 (5 ffb) notes Insufficient balance" = "BCA" ∧
    extractTotal "H2H BRI to BCA Total 9000 (5 ffb) notes Insufficient balance" = "9000" ∧
    extractFFB "H2H BRI to BCA Total 9000 (5 ffb) notes Insufficient balance" = "5" ∧
    extractNotes "H2H BRI to BCA Total 9000 (5 ffb) notes Insufficient balance" = "Insufficient balance" :=
  ⟨by decide, by decide, by decide, by decide, by decide⟩

/-- Claim C3 (amended): `extractNotes` equals its closed form
`notesClosed`: scan for the first occurrence of the literal `notes`
followed by at least one whitespace character (that whitespace run may
span line breaks); the value is the text from the first non-whitespace
character after the anchor up to the next line feed or the end of input,
trimmed, with `"N/A"` when the pattern is absent or the value is empty.
In particular the returned value itself never contains a line feed, so a
notes value cannot span an embedded line break. -/
theorem spec_c3 (s : String) : extractNotes s = notesClosed s :=
  extractNotes_eq_closed s

theorem spec_c3_counterexample :
    extractNotes "notes abc\ndef" = "abc" ∧
      extractNotes "notes abc\ndef" ≠ "abc\ndef" :=
  ⟨by decide, by decide⟩

/-- Claim C4: for every parsed body whose `type` is
`"url_verification"`, `doPost` responds with the serialization of
`{ challenge: <echoed value> }` and terminates without appending any row,
for every behaviour of the external collaborators. -/
theorem spec_c4 (data ch : Json) (ext : External)
    (hty : jsGet data "type" = .ok (.jstr "url_verification"))
    (hch : jsGet data "challenge" = .ok ch) :
    (doPost (some data) ext).response = jsonStringify (.jobj [("challenge", ch)]) ∧
      (doPost (some data) ext).rows = [] := by
  have hd : doPost (some data) ext =
      ⟨jsonStringify (.jobj [("challenge", ch)]), []⟩ := by
    rw [doPost, hty, hch]
    simp [strictEqStr]
  rw [hd]
  exact ⟨rfl, rfl⟩

theorem spec_c4_witness :
    (doPost (some handshakeBody) extW).response = "\x7b\"challenge\":\"abc123\"\x7d" ∧
      (doPost (some handshakeBody) extW).rows = [] := by
  have h := spec_c4 handshakeBody (.jstr "abc123") extW rfl rfl
  exact ⟨h.1.trans (by decide), h.2⟩

/-- Claim C5: for every message in which a given extractor's anchor
literal (`H2H`, `to`, `Total`, `ffb`, `notes`) does not occur
case-insensitively, that extractor returns the sentinel `"N/A"` (and, the
extractors being total functions, never throws). -/
theorem spec_c5 :
    (∀ s : String, occursCI h2hAnchor s.data = false → extractSourceBank s = "N/A") ∧
    (∀ s : String, occursCI toAnchor s.data = false → extractBeneficiaryBank s = "N/A") ∧
    (∀ s : String, occursCI totalAnchor s.data = false → extractTotal s = "N/A") ∧
    (∀ s : String, occursCI ffbAnchor s.data = false → extractFFB s = "N/A") ∧
    (∀ s : String, occursCI notesAnchor s.data = false → extractNotes s = "N/A") := by
  refine ⟨?_, ?_, ?_, ?_, ?_⟩
  · intro s h
    rw [extractSourceBank,
      show sourceBankRE = .seq (.lit h2hAnchor) (.seq (.plus .ws) (.grp (.plus .word))) from rfl,
      matchFrom_litSeq_none h2hAnchor _ s.data h]
  · intro s h
    rw [extractBeneficiaryBank,
      show beneficiaryBankRE = .seq (.lit toAnchor)
        (.seq (.plus .ws) (.seq (.grp .starLazy) (.seq (.plus .ws) (.lit totalAnchor)))) from rfl,
      matchFrom_litSeq_none toAnchor _ s.data h]
  · intro s h
    rw [extractTotal,
      show totalRE = .seq (.lit totalAnchor) (.seq (.plus .ws) (.grp (.plus .digit))) from rfl,
      matchFrom_litSeq_none totalAnchor _ s.data h]
  · intro s h
    rw [extractFFB, matchFrom_ffb_none s.data h]
  · intro s h
    rw [extractNotes,
      show notesRE = .seq (.lit notesAnchor)
        (.seq (.plus .ws) (.seq (.grp .starLazy) .endAlt)) from rfl,
      matchFrom_litSeq_none notesAnchor _ s.data h]

theorem spec_c5_witness :
    extractSourceBank "no anchors here" = "N/A" ∧
    extractBeneficiaryBank "h2h only" = "N/A" ∧
    extractTotal "nearly" = "N/A" ∧
    extractFFB "no anchors here" = "N/A" ∧
    extractNotes "no anchors here" = "N/A" :=
  ⟨spec_c5.1 "no anchors here" (by decide),
   spec_c5.2.1 "h2h only" (by decide),
   spec_c5.2.2.1 "nearly" (by decide),
   spec_c5.2.2.2.1 "no anchors here" (by decide),
   spec_c5.2.2.2.2 "no anchors here" (by decide)⟩

/-- Claim C6: `generateSlackLink` is a pure deterministic function of
`(channel, timestamp)`, and when the timestamp contains a decimal point
the result is the fixed workspace base URL concatenated with
`/archives/<channel>/p<timestamp with the decimal point removed>`, no
other character being altered or removed. -/
theorem spec_c6 :
    (∀ c1 t1 c2 t2 : String, c1 = c2 → t1 = t2 →
      generateSlackLink c1 t1 = generateSlackLink c2 t2) ∧
    (∀ ch a b : String, (∀ c ∈ a.data, c ≠ '.') →
      generateSlackLink ch (a ++ "." ++ b) =
        workspaceUrl ++ "/archives/" ++ ch ++ "/p" ++ a ++ b) := by
  constructor
  · intro c1 t1 c2 t2 h1 h2
    rw [h1, h2]
  · intro ch a b ha
    have hkey : String.mk (replaceFirstDot (a ++ "." ++ b).data) = a ++ b := by
      have hd : (a ++ "." ++ b).data = a.data ++ '.' :: b.data := by
        simp only [String.data_append]
        rw [List.append_assoc]
        rfl
      rw [hd, replaceFirstDot_append a.data b.data ha]
      apply String.ext
      simp [String.data_append]
    rw [generateSlackLink, hkey, ← String.append_assoc]

theorem spec_c6_witness :
    generateSlackLink "C0123" ("1698257696" ++ "." ++ "123456") =
      workspaceUrl ++ "/archives/" ++ "C0123" ++ "/p" ++ "1698257696" ++ "123456" :=
  spec_c6.2 "C0123" "1698257696" "123456" (by decide)

/-- Claim C7: every row handed to the sheet append has exactly nine
columns, in the fixed order
`[timestampUtcIso, dateLocal, timeLocal, sourceBank, beneficiaryBank,
total, ffbQuantity, notes, permalink]` (the shape of `mkRow`), regardless
of which extracted fields are `"N/A"`. -/
theorem spec_c7 (body : Option Json) (ext : External) :
    (doPost body ext).rows = [] ∨
      ∃ iso loc text ch ts,
        (doPost body ext).rows = [mkRow iso loc text ch ts] ∧
          (mkRow iso loc text ch ts).length = 9 := by
  cases body with
  | none => exact Or.inl rfl
  | some data =>
    rw [doPost]
    split
    · exact Or.inl rfl
    · rename_i ty hty
      by_cases hv : strictEqStr ty "url_verification" = true
      · rw [if_pos hv]
        cases jsGet data "challenge" with
        | error e => exact Or.inl rfl
        | ok ch => exact Or.inl rfl
      · rw [if_neg hv]
        cases hm : handleMention data ext with
        | error e => exact Or.inl rfl
        | ok rows =>
          rcases handleMention_rows data ext rows hm with h | ⟨iso, loc, text, ch, ts, h⟩
          · exact Or.inl (by rw [h])
          · exact Or.inr ⟨iso, loc, text, ch, ts, by rw [h], rfl⟩

/-- Claim C8: for every message whose first case-insensitive occurrence
of the literal `H2H` is followed by whitespace and then a word character,
`extractSourceBank` returns exactly the maximal word-token following that
whitespace run, verbatim. -/
theorem spec_c8 (s : String) (i : Nat)
    (hfirst : ∀ j, j < i → ciStartsWith h2hAnchor (s.data.drop j) = false)
    (hca : ciStartsWith h2hAnchor (s.data.drop i) = true)
    (hws : headIs isJsWs ((s.data.drop i).drop h2hAnchor.length) = true)
    (hword : headIs isWordChar
      (((s.data.drop i).drop h2hAnchor.length).dropWhile isJsWs) = true) :
    extractSourceBank s =
      String.mk ((((s.data.drop i).drop h2hAnchor.length).dropWhile isJsWs).takeWhile
        isWordChar) := by
  have hdisj : ∀ c, isJsWs c = true → CharClass.mem .word c = false := fun c h => by
    rw [memWord]; exact ws_not_word c h
  have hhit : anchorClassHit h2hAnchor .word (s.data.drop i) = true := by
    rw [anchorClassHit, hca, memWord, hws, hword]
    rfl
  have hf : ∀ j, j < i → anchorClassHit h2hAnchor .word (s.data.drop j) = false := by
    intro j hj
    rw [anchorClassHit, hfirst j hj]
    rfl
  rw [extractSourceBank,
    show sourceBankRE = anchorClassRE h2hAnchor .word from rfl,
    matchFrom_anchorClass h2hAnchor .word (by decide) hdisj,
    anchorClassCap_first h2hAnchor .word (by decide) i s.data hf hhit]
  have hne : anchorClassCapAt h2hAnchor .word (s.data.drop i) ≠ [] := by
    rw [anchorClassCapAt, memWord]
    exact headIs_true_takeWhile_ne isWordChar _ hword
  show (if anchorClassCapAt h2hAnchor .word (s.data.drop i) = [] then "N/A"
    else String.mk (anchorClassCapAt h2hAnchor .word (s.data.drop i))) = _
  rw [if_neg hne]
  rfl

theorem spec_c8_witness : extractSourceBank "H2H BRI to BCA" = "BRI" := by
  have h := spec_c8 "H2H BRI to BCA" 0
    (fun j hj => absurd hj (Nat.not_lt_zero j)) (by decide) (by decide) (by decide)
  exact h.trans (by decide)

/-- Claim C9: each extractor's anchor is matched as a case-insensitive
substring, not as a standalone word token: whenever `Subtotal` (which
contains `total`) is followed by whitespace and a digit character, with no
earlier match of the Total pattern, `extractTotal` returns the digit run;
likewise `H2H` matches inside `xH2H` and `notes` inside `footnotes`. -/
theorem spec_c9 :
    (∀ (s : String) (i : Nat) (r : List Char),
      s.data.drop i = "Subtotal".data ++ r →
      (∀ j, j < i + 3 → anchorClassHit totalAnchor .digit (s.data.drop j) = false) →
      headIs isJsWs ((s.data.drop (i + 3)).drop totalAnchor.length) = true →
      headIs isDigitChar
        (((s.data.drop (i + 3)).drop totalAnchor.length).dropWhile isJsWs) = true →
      extractTotal s =
        String.mk ((((s.data.drop (i + 3)).drop totalAnchor.length).dropWhile
          isJsWs).takeWhile isDigitChar)) ∧
    extractSourceBank "xH2H BNI transfer" = "BNI" ∧
    extractNotes "footnotes hello" = "hello" := by
  refine ⟨?_, by decide, by decide⟩
  intro s i r heq hfirst hws hdig
  have hd3 : s.data.drop (i + 3) = 't' :: 'o' :: 't' :: 'a' :: 'l' :: r := by
    rw [← List.drop_drop, heq]
    rfl
  have hca : ciStartsWith totalAnchor (s.data.drop (i + 3)) = true := by
    rw [hd3]; exact ciStartsWith_total_subtotal r
  have hdisj : ∀ c, isJsWs c = true → CharClass.mem .digit c = false := fun c h => by
    rw [memDigit]; exact ws_not_digit c h
  have hhit : anchorClassHit totalAnchor .digit (s.data.drop (i + 3)) = true := by
    rw [anchorClassHit, hca, memDigit, hws, hdig]
    rfl
  rw [extractTotal,
    show totalRE = anchorClassRE totalAnchor .digit from rfl,
    matchFrom_anchorClass totalAnchor .digit (by decide) hdisj,
    anchorClassCap_first totalAnchor .digit (by decide) (i + 3) s.data hfirst hhit]
  have hne : anchorClassCapAt totalAnchor .digit (s.data.drop (i + 3)) ≠ [] := by
    rw [anchorClassCapAt, memDigit]
    exact headIs_true_takeWhile_ne isDigitChar _ hdig
  show (if anchorClassCapAt totalAnchor .digit (s.data.drop (i + 3)) = [] then "N/A"
    else String.mk (anchorClassCapAt totalAnchor .digit (s.data.drop (i + 3)))) = _
  rw [if_neg hne]
  rfl

theorem spec_c9_witness : extractTotal "Subtotal 42" = "42" := by
  have h := spec_c9.1 "Subtotal 42" 0 " 42".data (by decide)
    (by decide) (by decide) (by decide)
  exact h.trans (by decide)

/-- Claim C10: when an extractor's pattern matches but the captured field
text is empty — as for `extractBeneficiaryBank` on `"to  Total"` and
`extractNotes` on `"notes   "` — the extractor returns the sentinel
`"N/A"` (the truthiness of `match[1]` is tested before trimming), and
`extractNotes` never returns the empty string. -/
theorem spec_c10 :
    (∀ s : String, matchFrom notesRE s.data = some (some []) →
      extractNotes s = "N/A") ∧
    (∀ s : String, matchFrom beneficiaryBankRE s.data = some (some []) →
      extractBeneficiaryBank s = "N/A") ∧
    (matchFrom beneficiaryBankRE "to  Total".data = some (some []) ∧
      extractBeneficiaryBank "to  Total" = "N/A") ∧
    (matchFrom notesRE "notes   ".data = some (some []) ∧
      extractNotes "notes   " = "N/A") ∧
    (∀ s : String, extractNotes s ≠ "") := by
  refine ⟨?_, ?_, ⟨by decide, by decide⟩, ⟨by decide, by decide⟩, extractNotes_ne_empty⟩
  · intro s h
    rw [extractNotes, h]
    rfl
  · intro s h
    rw [extractBeneficiaryBank, h]
    rfl

theorem spec_c10_witness : extractNotes "notes  \x09 " = "N/A" :=
  spec_c10.1 "notes  \x09 " (by decide)
